import Mathlib

/-!
Verification development for the AgnusAI pull-request reviewer.

Each section shallowly embeds one part of the TypeScript source:

* `src/adapters/vcs/azure-devops.ts` — the diff engine (`lcsEdits`,
  `buildHunks`, `computeFileDiff`) and `submitReview`;
* `src/llm/parser.ts` — `parseReviewResponse` / `parseCommentBlocks`;
* the precision filter (`filterByConfidence`);
* the Fastify webhook routes (`verifyGitHubSignature` and the two
  `POST /api/webhooks/...` handlers);
* `src/index.ts` — `PRReviewAgent.postReview`.

Machine numbers are modelled as `Nat` / `Int` / `Rat`; regular-expression
matching in the parser is hand-compiled into explicit scanners that realise
the exact semantics of the concrete regexes used by the source.
-/

namespace AgnusAi

/-! ## Diff engine: edit scripts (azure-devops.ts, `lcsEdits`) -/

/-- Edit kinds of the diff engine (`'equal' | 'add' | 'remove'`). -/
inductive EditType where
  | equal
  | add
  | remove
deriving DecidableEq, Repr

/-- One entry of the edit script produced by `lcsEdits`:
`{ type, oldLine, newLine, content }`.  The line-content type is kept
polymorphic; the source instantiates it with JavaScript strings. -/
structure Edit (α : Type) where
  type : EditType
  oldLine : Nat
  newLine : Nat
  content : α
deriving DecidableEq, Repr

variable {α : Type} [DecidableEq α] [Inhabited α]

/-- The LCS dynamic-programming table `dp` of `lcsEdits`:
`dp[i][j]` is filled with `0` on the borders and otherwise with
`old[i-1] === new[j-1] ? dp[i-1][j-1] + 1 : max(dp[i-1][j], dp[i][j-1])`.
The structural fuel argument (any value at least `i + j`) only makes the
recursion on the two indices structural. -/
def lcsTableFuel (oldLines newLines : List α) : Nat → Nat → Nat → Nat
  | 0, _, _ => 0
  | _ + 1, 0, _ => 0
  | _ + 1, _ + 1, 0 => 0
  | fuel + 1, i + 1, j + 1 =>
    if oldLines.getD i default = newLines.getD j default then
      lcsTableFuel oldLines newLines fuel i j + 1
    else
      max (lcsTableFuel oldLines newLines fuel i (j + 1))
        (lcsTableFuel oldLines newLines fuel (i + 1) j)

/-- Entry `dp[i][j]` of the LCS table. -/
def lcsTable (oldLines newLines : List α) (i j : Nat) : Nat :=
  lcsTableFuel oldLines newLines (i + j) i j

/-- The backtracking `while (i > 0 || j > 0)` loop of `lcsEdits`, which
unshifts entries onto the result; the recursion returns the list in the
same front-to-back order.  Every loop iteration decreases `i + j`, so any
fuel of at least `i + j` realises the full loop. -/
def backtrackFuel (oldLines newLines : List α) : Nat → Nat → Nat → List (Edit α)
  | 0, _, _ => []
  | fuel + 1, i, j =>
    if i = 0 ∧ j = 0 then
      []
    else if 0 < i ∧ 0 < j ∧ oldLines.getD (i - 1) default = newLines.getD (j - 1) default then
      backtrackFuel oldLines newLines fuel (i - 1) (j - 1) ++
        [⟨EditType.equal, i, j, oldLines.getD (i - 1) default⟩]
    else if 0 < j ∧ (i = 0 ∨
        lcsTable oldLines newLines (i - 1) j ≤ lcsTable oldLines newLines i (j - 1)) then
      backtrackFuel oldLines newLines fuel i (j - 1) ++
        [⟨EditType.add, 0, j, newLines.getD (j - 1) default⟩]
    else
      backtrackFuel oldLines newLines fuel (i - 1) j ++
        [⟨EditType.remove, i, 0, oldLines.getD (i - 1) default⟩]

/-- The backtracking loop started at `(i, j)`. -/
def backtrackEdits (oldLines newLines : List α) (i j : Nat) : List (Edit α) :=
  backtrackFuel oldLines newLines (i + j) i j

/-- `AzureDevOpsAdapter.lcsEdits`.  For `m * n > 600_000` it returns the
full-replacement script (every old line removed, every new line added);
otherwise it backtracks through the LCS table from `(m, n)`. -/
def lcsEdits (oldLines newLines : List α) : List (Edit α) :=
  let m := oldLines.length
  let n := newLines.length
  if 600000 < m * n then
    oldLines.enum.map (fun p => ⟨EditType.remove, p.1 + 1, 0, p.2⟩) ++
      newLines.enum.map (fun p => ⟨EditType.add, 0, p.1 + 1, p.2⟩)
  else
    backtrackEdits oldLines newLines m n

/-- Replaying the `equal` and `remove` entries of a script in order: the
old-file lines it represents. -/
def oldContents (edits : List (Edit α)) : List α :=
  (edits.filter (fun e => e.type ≠ EditType.add)).map Edit.content

/-- Replaying the `equal` and `add` entries of a script in order: the
new-file lines it represents. -/
def newContents (edits : List (Edit α)) : List α :=
  (edits.filter (fun e => e.type ≠ EditType.remove)).map Edit.content

/-! ## Diff engine: hunks (azure-devops.ts, `buildHunks`, `computeFileDiff`) -/

/-- A unified-diff hunk as built by `buildHunks`:
`{ oldStart, oldLines, newStart, newLines, content }`. -/
structure DiffHunk where
  oldStart : Nat
  oldLines : Nat
  newStart : Nat
  newLines : Nat
  content : String
deriving DecidableEq, Repr

/-- The range-merging loop of `buildHunks`: each changed index spawns the
window `[max(0, idx - context), min(total - 1, idx + context)]`, and a
window whose start is within one step of the previous range's end extends
that range (`ranges[last][1] = end`).  `Nat` subtraction already clamps at
zero exactly like the source's `Math.max(0, idx - context)` and like the
JavaScript comparison `… >= start - 1` at `start = 0`. -/
def mergeRanges (context total : Nat) (idxs : List Nat) : List (Nat × Nat) :=
  idxs.foldl
    (fun rs idx =>
      let start := idx - context
      let stop := min (total - 1) (idx + context)
      match rs.getLast? with
      | some r => if start ≤ r.2 + 1 then rs.dropLast ++ [(r.1, stop)] else rs ++ [(start, stop)]
      | none => [(start, stop)])
    []

/-- Renders one edit as a unified-diff body line (`+x` / `-x` / ` x`). -/
def editLine (e : Edit String) : String :=
  match e.type with
  | EditType.add => "+" ++ e.content
  | EditType.remove => "-" ++ e.content
  | EditType.equal => " " ++ e.content

/-- `AzureDevOpsAdapter.buildHunks`: group an edit script into hunks with
`context` lines of context, merging overlapping context windows. -/
def buildHunks (edits : List (Edit String)) (context : Nat) : List DiffHunk :=
  let changedIdxs := (edits.enum.filter (fun p => p.2.type ≠ EditType.equal)).map Prod.fst
  if changedIdxs = [] then []
  else
    (mergeRanges context edits.length changedIdxs).map (fun r =>
      let slice := (edits.drop r.1).take (r.2 + 1 - r.1)
      let oldStart := ((slice.find? (fun e => 0 < e.oldLine)).map Edit.oldLine).getD 1
      let newStart := ((slice.find? (fun e => 0 < e.newLine)).map Edit.newLine).getD 1
      let oldLineCount := (slice.filter (fun e => e.type ≠ EditType.add)).length
      let newLineCount := (slice.filter (fun e => e.type ≠ EditType.remove)).length
      let body := String.intercalate "\n" (slice.map editLine)
      { oldStart := oldStart
        oldLines := oldLineCount
        newStart := newStart
        newLines := newLineCount
        content := "@@ -" ++ toString oldStart ++ "," ++ toString oldLineCount ++
          " +" ++ toString newStart ++ "," ++ toString newLineCount ++ " @@\n" ++ body })

/-- JavaScript `String.prototype.split` with a one-character separator:
the chunks between separator occurrences (splitting `""` is guarded away
by the caller). -/
def splitOnChar (sep : Char) : List Char → List (List Char)
  | [] => [[]]
  | c :: rest =>
    if c = sep then [] :: splitOnChar sep rest
    else
      match splitOnChar sep rest with
      | [] => [[c]]
      | g :: gs => (c :: g) :: gs

/-- `content.split('\n')` as a list of strings. -/
def splitLines (s : String) : List String :=
  (splitOnChar '\n' s.toList).map String.mk

/-- Result record of `computeFileDiff`. -/
structure FileDiffResult where
  additions : Nat
  deletions : Nat
  hunks : List DiffHunk
deriving DecidableEq, Repr

/-- `AzureDevOpsAdapter.computeFileDiff`: split both snapshots into lines
(an empty string, being falsy, yields no lines), run `lcsEdits`, count the
adds and removes and group the script into hunks with 3 lines of context. -/
def computeFileDiff (oldContent newContent : String) : FileDiffResult :=
  let oldLines := if oldContent = "" then [] else splitLines oldContent
  let newLines := if newContent = "" then [] else splitLines newContent
  if oldLines.length = 0 ∧ newLines.length = 0 then ⟨0, 0, []⟩
  else
    let edits := lcsEdits oldLines newLines
    { additions := (edits.filter (fun e => e.type = EditType.add)).length
      deletions := (edits.filter (fun e => e.type = EditType.remove)).length
      hunks := buildHunks edits 3 }

/-! ## LLM response parser (src/llm/parser.ts)

The parser is regex-driven.  Each regex is hand-compiled into an explicit
scanner over `List Char` with the same semantics (case-insensitive literal
matching, greedy `\s*` and `\d+`, a greedy `[^\],]+` character class, a
lazy body capture bounded by the lookahead `(?=\[File:|VERDICT:|$)`, and
restart at the next input position when a match attempt fails). -/

/-- Comment severity (`'info' | 'warning' | 'error'`). -/
inductive Severity where
  | info
  | warning
  | error
deriving DecidableEq, Repr

/-- A review comment (`ReviewComment` in src/types).  `confidence` is the
optional `[0,1]` score; JavaScript numbers are modelled as rationals. -/
structure ReviewComment where
  path : String
  line : Nat
  body : String
  severity : Severity
  confidence : Option ℚ := none
  suggestion : Option String := none
deriving DecidableEq, Repr

/-- A parsed review (`ReviewResult`).  The runtime verdict value is a
JavaScript string. -/
structure ReviewResult where
  summary : String
  comments : List ReviewComment
  suggestions : List String
  verdict : String
deriving DecidableEq, Repr

/-- JavaScript `\s` on the ASCII range (space, tab, newline, carriage
return, vertical tab, form feed). -/
def isWs (c : Char) : Bool :=
  c = ' ' || c = '\t' || c = '\n' || c = '\r' || c.toNat = 11 || c.toNat = 12

/-- Case-insensitive literal match of `pat` (given lower-case) at the head
of `s`, as performed by the `/i` regex flag on ASCII letters. -/
def matchesAt (pat : List Char) (s : List Char) : Bool :=
  (s.take pat.length).map Char.toLower == pat

/-- Index of the first position of `s` where `pat` matches
case-insensitively, like the regex engine scanning for a match start. -/
def findCI (pat : List Char) : List Char → Option Nat
  | [] => if pat = [] then some 0 else none
  | c :: rest =>
    if matchesAt pat (c :: rest) then some 0 else (findCI pat rest).map (· + 1)

/-- JavaScript `String.prototype.trim` on the modelled whitespace set. -/
def trimChars (s : List Char) : List Char :=
  ((s.dropWhile isWs).reverse.dropWhile isWs).reverse

/-- The lazy capture `([\s\S]*?)(?=\[File:|VERDICT:|$)`: take characters up
to (excluding) the first position where `[File:` or `VERDICT:` matches
case-insensitively, or to the end of input. -/
def takeUntilMarker : List Char → List Char
  | [] => []
  | c :: rest =>
    if matchesAt "[file:".toList (c :: rest) || matchesAt "verdict:".toList (c :: rest) then
      []
    else
      c :: takeUntilMarker rest

/-- JavaScript `parseInt` on a non-empty digit string. -/
def digitsToNat (ds : List Char) : Nat :=
  ds.foldl (fun acc c => 10 * acc + (c.toNat - 48)) 0

/-- Scans for `pat` (case-insensitively) without crossing a line
terminator, as the dot in `/severity.*critical/i` never matches a
newline. -/
def lineHas (pat : List Char) : List Char → Bool
  | [] => false
  | c :: rest =>
    if matchesAt pat (c :: rest) then true
    else if c = '\n' || c = '\r' then false
    else lineHas pat rest

/-- The alternative `Critical\s*🔴` (resp. `Major\s*⚠️`): the keyword,
optional whitespace, then the emoji. -/
def keywordThenEmoji (word emoji : List Char) : List Char → Bool
  | [] => false
  | c :: rest =>
    (matchesAt word (c :: rest) && matchesAt emoji (((c :: rest).drop word.length).dropWhile isWs))
      || keywordThenEmoji word emoji rest

/-- The alternative `severity.*critical` (resp. `…major`): `severity`, any
non-newline characters, then the second keyword on the same line. -/
def severityThen (word : List Char) : List Char → Bool
  | [] => false
  | c :: rest =>
    (matchesAt "severity".toList (c :: rest) && lineHas word ((c :: rest).drop 8))
      || severityThen word rest

/-- `detectSeverity` of src/llm/parser.ts:
`/Critical\s*🔴|severity.*critical/i` yields `error`,
`/Major\s*⚠️|severity.*major/i` yields `warning`, otherwise `info`. -/
def detectSeverity (body : String) : Severity :=
  let s := body.toList
  if keywordThenEmoji "critical".toList "🔴".toList s || severityThen "critical".toList s then
    Severity.error
  else if keywordThenEmoji "major".toList "⚠️".toList s || severityThen "major".toList s then
    Severity.warning
  else
    Severity.info

/-- One attempt of the block regex
`\[File:\s*([^\],]+),\s*Line:\s*(\d+)\]([\s\S]*?)(?=\[File:|VERDICT:|$)`
at the head of `s` (which is known to start with `[File:`).  Returns the
comment the block contributes (`none` for a blank body, which the source
skips with `continue`) and the rest of the input after the match, or
`none` when the attempt fails at this position.  The `pathChars = []`
fallback mirrors regex backtracking into `\s*`: when everything between
`File:` and the comma is whitespace, the class `[^\],]+` still captures
the last whitespace character. -/
def matchBlock (s : List Char) : Option (Option ReviewComment × List Char) :=
  let after := s.drop 6
  let wsCount := (after.takeWhile isWs).length
  let after2 := after.dropWhile isWs
  let pathChars := after2.takeWhile (fun c => ¬(c = ']' || c = ','))
  let pathCapture :=
    if pathChars = [] then (if 0 < wsCount then (after.take wsCount).drop (wsCount - 1) else [])
    else pathChars
  let rest1 := after2.dropWhile (fun c => ¬(c = ']' || c = ','))
  if pathCapture = [] then none
  else
    match rest1 with
    | ',' :: rest2 =>
      let rest3 := rest2.dropWhile isWs
      if matchesAt "line:".toList rest3 then
        let rest4 := (rest3.drop 5).dropWhile isWs
        let digits := rest4.takeWhile Char.isDigit
        let rest5 := rest4.dropWhile Char.isDigit
        if digits = [] then none
        else
          match rest5 with
          | ']' :: rest6 =>
            let bodyChars := takeUntilMarker rest6
            let remainder := rest6.drop bodyChars.length
            let body := trimChars bodyChars
            if body = [] then some (none, remainder)
            else
              some (some
                { path := String.mk (trimChars pathCapture)
                  line := digitsToNat digits
                  body := String.mk body
                  severity := detectSeverity (String.mk body) }, remainder)
          | _ => none
      else none
    | _ => none

/-- The `while ((match = pattern.exec(response)) !== null)` loop: the regex
engine looks for the next match at or after the current position; after a
match, scanning resumes where the lazy body capture stopped.  The fuel
argument (always at least the input length plus one) makes the scan
structurally total; every step either consumes input or stops. -/
def scanBlocks : Nat → List Char → List ReviewComment
  | 0, _ => []
  | _, [] => []
  | fuel + 1, c :: rest =>
    if matchesAt "[file:".toList (c :: rest) then
      match matchBlock (c :: rest) with
      | some (cmt, remainder) => cmt.toList ++ scanBlocks fuel remainder
      | none => scanBlocks fuel rest
    else
      scanBlocks fuel rest

/-- `parseCommentBlocks` of src/llm/parser.ts. -/
def parseCommentBlocks (response : String) : List ReviewComment :=
  scanBlocks (response.length + 1) response.toList

/-- The verdict regex `/VERDICT:\s*(approve|request_changes|comment)/i`:
find the first position where `VERDICT:` is followed (after optional
whitespace) by one of the three keywords; the captured keyword is
lower-cased by the source. -/
def scanVerdict : List Char → Option String
  | [] => none
  | c :: rest =>
    if matchesAt "verdict:".toList (c :: rest) then
      let after := ((c :: rest).drop 8).dropWhile isWs
      if matchesAt "approve".toList after then some "approve"
      else if matchesAt "request_changes".toList after then some "request_changes"
      else if matchesAt "comment".toList after then some "comment"
      else scanVerdict rest
    else
      scanVerdict rest

/-- The summary regex `/SUMMARY:\s*([\s\S]*?)(?=\[File:|VERDICT:|$)/i`:
at the first occurrence of `SUMMARY:` skip whitespace and capture lazily
up to the next marker; the attempt never fails because the lookahead
accepts the end of input. -/
def scanSummary (s : List Char) : Option (List Char) :=
  match findCI "summary:".toList s with
  | none => none
  | some idx => some (takeUntilMarker ((s.drop (idx + 8)).dropWhile isWs))

/-- `parseReviewResponse` of src/llm/parser.ts: summary (or the first 500
characters when the summary regex fails), parsed comment blocks, verdict
(or `'comment'` when the verdict regex fails), empty suggestions. -/
def parseReviewResponse (response : String) : ReviewResult :=
  let s := response.toList
  { summary :=
      match scanSummary s with
      | some cs => String.mk (trimChars cs)
      | none => String.mk (s.take 500)
    comments := parseCommentBlocks response
    suggestions := []
    verdict := (scanVerdict s).getD "comment" }

/-! ## Precision filter (`filterByConfidence`) -/

/-- Result of the precision filter (`PrecisionFilterResult`). -/
structure PrecisionFilterResult where
  passed : List ReviewComment
  dropped : List ReviewComment
  emptyMessage : Option String
deriving DecidableEq, Repr

/-- `Partial<PrecisionFilterConfig>`: both fields optional; the merge
`{ ...DEFAULT_CONFIG, ...config }` fills in `threshold: 0.7` and
`logDropped: false`. -/
structure PrecisionFilterConfigOpt where
  threshold : Option ℚ := none
  logDropped : Option Bool := none

/-- The message returned when nothing passes (copied byte-for-byte from
the source, including its mojibake emoji). -/
def noIssuesMessage : String :=
  "## âœ… No significant issues found\n\nAll identified issues had low confidence scores. The PR appears to be in good shape."

/-- `filterByConfidence`: merge the config with the defaults, then route
each comment by `(comment.confidence ?? 0.5) >= threshold` into `passed`
or `dropped`, preserving order; when nothing passed, attach the empty
message. -/
def filterByConfidence (comments : List ReviewComment)
    (config : PrecisionFilterConfigOpt) : PrecisionFilterResult :=
  let threshold := config.threshold.getD (7 / 10)
  let passed := comments.filter (fun c => threshold ≤ c.confidence.getD (1 / 2))
  let dropped := comments.filter (fun c => ¬ threshold ≤ c.confidence.getD (1 / 2))
  { passed := passed
    dropped := dropped
    emptyMessage := if passed.length = 0 then some noIssuesMessage else none }

/-! ## Webhook routes (Fastify server, `webhookRoutes`)

The handlers are modelled as pure functions from the request data to the
HTTP status plus the list of background tasks handed to `setImmediate`
(incremental indexing or a review run).  HMAC-SHA-256 is abstracted as a
function argument `hmacHex`; nothing below depends on its values. -/

/-- A background task queued by a webhook handler. -/
inductive BackgroundTask where
  | indexTask (repoId : String) (files : List String)
  | reviewTask (platform : String) (repoId : String) (repoUrl : String) (prNumber : Nat)
deriving DecidableEq, Repr

/-- A webhook handler outcome: HTTP status and queued background tasks. -/
structure HandlerResult where
  status : Nat
  tasks : List BackgroundTask
deriving DecidableEq, Repr

/-- UTF-8 encoding of a character, byte values as `Nat`. -/
def utf8Char (c : Char) : List Nat :=
  let n := c.toNat
  if n < 128 then [n]
  else if n < 2048 then [192 + n / 64, 128 + n % 64]
  else if n < 65536 then [224 + n / 4096, 128 + n / 64 % 64, 128 + n % 64]
  else [240 + n / 262144, 128 + n / 4096 % 64, 128 + n / 64 % 64, 128 + n % 64]

/-- UTF-8 encoding of a string, as `Buffer.from(s)` produces. -/
def utf8Bytes (s : String) : List Nat :=
  s.toList.flatMap utf8Char

/-- The base64url alphabet. -/
def base64urlChar (n : Nat) : Char :=
  "ABCDEFGHIJKLMNOPQRSTUVWXYZabcdefghijklmnopqrstuvwxyz0123456789-_".toList.getD n '?'

/-- Unpadded base64url of a byte list (`Buffer.toString('base64url')`). -/
def base64url : List Nat → List Char
  | [] => []
  | [b1] => [base64urlChar (b1 / 4), base64urlChar (b1 % 4 * 16)]
  | [b1, b2] =>
    [base64urlChar (b1 / 4), base64urlChar (b1 % 4 * 16 + b2 / 16), base64urlChar (b2 % 16 * 4)]
  | b1 :: b2 :: b3 :: rest =>
    base64urlChar (b1 / 4) :: base64urlChar (b1 % 4 * 16 + b2 / 16) ::
      base64urlChar (b2 % 16 * 4 + b3 / 64) :: base64urlChar (b3 % 64) :: base64url rest

/-- `Buffer.from(repoUrl).toString('base64url').slice(0, 32)` — the stable
repo id both routes derive from the repository URL. -/
def mkRepoId (repoUrl : String) : String :=
  String.mk ((base64url (utf8Bytes repoUrl)).take 32)

/-- `[...new Set(xs)]`: deduplicate keeping first occurrences in order. -/
def jsSetDedup : List String → List String
  | [] => []
  | x :: rest => x :: jsSetDedup (rest.filter (fun y => y ≠ x))
termination_by l => l.length
decreasing_by
  have h := List.length_filter_le (fun y => decide (y ≠ x)) rest
  simp only [List.length_cons]
  omega

/-- `verifyGitHubSignature(secret, rawBody, sig)`:
an empty secret skips verification entirely; a falsy signature header
(absent or empty) fails; otherwise the header is compared against
`sha256=<hmacHex secret rawBody>` by `crypto.timingSafeEqual`, whose
length-mismatch exception is caught and turned into `false`. -/
def verifyGitHubSignature (hmacHex : String → String → String)
    (secret rawBody : String) (sig : Option String) : Bool :=
  if secret = "" then true
  else
    match sig with
    | none => false
    | some s =>
      if s = "" then false
      else
        let expected := "sha256=" ++ hmacHex secret rawBody
        if expected.length = s.length then expected == s else false

/-- One commit of a GitHub push payload (`added`/`modified`/`removed`). -/
structure GitHubCommit where
  added : List String := []
  modified : List String := []
  removed : List String := []
deriving DecidableEq, Repr

/-- The parts of a GitHub webhook request the route reads: the
`x-hub-signature-256` header, the raw body, the `x-github-event` header,
and the payload fields. -/
structure GitHubRequest where
  signature : Option String := none
  rawBody : String := ""
  event : String := ""
  repositoryHtmlUrl : Option String := none
  commits : List GitHubCommit := []
  action : Option String := none
  prNumber : Nat := 0
deriving DecidableEq, Repr

/-- `POST /api/webhooks/github`: verify the signature first (401 on
failure), then dispatch on the event — a `push` queues an incremental
index over the deduplicated changed files, a `pull_request` with action
`opened`/`synchronize` queues a review run; everything else is a 200
no-op. -/
def githubWebhookHandler (hmacHex : String → String → String)
    (webhookSecret : String) (req : GitHubRequest) : HandlerResult :=
  if ¬ verifyGitHubSignature hmacHex webhookSecret req.rawBody req.signature then
    ⟨401, []⟩
  else
    match req.repositoryHtmlUrl with
    | none => ⟨200, []⟩
    | some repoUrl =>
      let repoId := mkRepoId repoUrl
      if req.event = "push" then
        let changedFiles := req.commits.flatMap (fun c => c.added ++ c.modified ++ c.removed)
        let uniqueFiles := jsSetDedup changedFiles
        ⟨200, if uniqueFiles.length ≠ 0 then [BackgroundTask.indexTask repoId uniqueFiles] else []⟩
      else if req.event = "pull_request" then
        if req.action = some "opened" ∨ req.action = some "synchronize" then
          ⟨200, [BackgroundTask.reviewTask "github" repoId repoUrl req.prNumber]⟩
        else ⟨200, []⟩
      else ⟨200, []⟩

/-- One commit of an Azure push payload: the `change.item?.path` values
(`none` models a missing path, which `?? ''` maps to the empty string). -/
structure AzureCommit where
  changePaths : List (Option String) := []
deriving DecidableEq, Repr

/-- The parts of an Azure DevOps webhook request the route reads.  The
route performs no signature verification at all; the `signature` field
models a header the sender may attach, which the handler never reads. -/
structure AzureRequest where
  signature : Option String := none
  eventType : Option String := none
  remoteUrl : Option String := none
  commits : List AzureCommit := []
  pullRequestId : Nat := 0
deriving DecidableEq, Repr

/-- `path.replace(/^\//, '')`: strip one leading slash. -/
def stripLeadingSlash (p : String) : String :=
  match p.toList with
  | '/' :: rest => String.mk rest
  | _ => p

/-- `POST /api/webhooks/azure`: no signature check; `git.push` queues an
incremental index over the deduplicated non-empty changed paths, and
`git.pullrequest.created` / `git.pullrequest.updated` queue a review
run. -/
def azureWebhookHandler (req : AzureRequest) : HandlerResult :=
  match req.remoteUrl with
  | none => ⟨200, []⟩
  | some repoUrl =>
    let repoId := mkRepoId repoUrl
    if req.eventType = some "git.push" then
      let changedFiles :=
        req.commits.flatMap (fun c => c.changePaths.map (fun p => (p.map stripLeadingSlash).getD ""))
      let uniqueFiles := jsSetDedup (changedFiles.filter (fun p => p ≠ ""))
      ⟨200, if uniqueFiles.length ≠ 0 then [BackgroundTask.indexTask repoId uniqueFiles] else []⟩
    else if req.eventType = some "git.pullrequest.created" ∨
        req.eventType = some "git.pullrequest.updated" then
      ⟨200, [BackgroundTask.reviewTask "azure" repoId repoUrl req.pullRequestId]⟩
    else ⟨200, []⟩

/-! ## postReview (src/index.ts, `PRReviewAgent.postReview`) -/

/-- A file of a PR diff (`FileDiff` in src/types). -/
inductive FileStatus where
  | added
  | modified
  | deleted
  | renamed
deriving DecidableEq, Repr

/-- One changed file of a diff. -/
structure FileDiff where
  path : String
  status : FileStatus
  additions : Nat
  deletions : Nat
  hunks : List DiffHunk
deriving DecidableEq, Repr

/-- A PR diff (`Diff` in src/types). -/
structure Diff where
  files : List FileDiff
  additions : Nat
  deletions : Nat
  changedFiles : Nat
deriving DecidableEq, Repr

/-- The review record handed to `VCSAdapter.submitReview`. -/
structure Review where
  summary : String
  comments : List ReviewComment
  verdict : String
deriving DecidableEq, Repr

/-- The `diffPathMap` lookup of `postReview`: normalised path (leading
slash stripped) to original path.  `Map.set` lets a later file override an
earlier one with the same normalised path, so the lookup takes the last
matching entry. -/
def diffPathResolve (files : List FileDiff) (normalised : String) : Option String :=
  (files.reverse.find? (fun f => stripLeadingSlash f.path = normalised)).map FileDiff.path

/-- The comment-validation loop of `PRReviewAgent.postReview`: a comment
whose normalised path resolves against the diff is kept with the resolved
path; a comment whose path is not in the diff is skipped.  No other check
is applied before submission. -/
def postReviewComments (diff : Diff) (comments : List ReviewComment) : List ReviewComment :=
  comments.filterMap (fun c =>
    (diffPathResolve diff.files (stripLeadingSlash c.path)).map (fun rp => { c with path := rp }))

/-- `PRReviewAgent.postReview`: the review submitted to the host. -/
def postReviewSubmission (diff : Diff) (result : ReviewResult) : Review :=
  { summary := result.summary
    comments := postReviewComments diff result.comments
    verdict := result.verdict }

/-- The `+` line numbers of a hunk, per the unified-diff convention the
spec's claim refers to: walk the body lines after the `@@` header keeping
a new-file line counter that starts at `newStart` and advances on every
non-`-` line; a `+` line contributes its current number. -/
def hunkAddedLines (h : DiffHunk) : List Nat :=
  (((splitOnChar '\n' h.content.toList).drop 1).foldl
    (fun acc l =>
      match l with
      | '-' :: _ => acc
      | '+' :: _ => (acc.1 + 1, acc.2 ++ [acc.1])
      | _ => (acc.1 + 1, acc.2))
    ((h.newStart, []) : Nat × List Nat)).2

/-- All `+` line numbers of one file's hunks. -/
def fileAddedLines (f : FileDiff) : List Nat :=
  f.hunks.flatMap hunkAddedLines

/-- The number of leading context lines of a hunk: body lines (after the
`@@` header) starting with a space, up to the first changed line. -/
def hunkLeadingContext (h : DiffHunk) : Nat :=
  (((splitOnChar '\n' h.content.toList).drop 1).takeWhile (fun l => l.head? = some ' ')).length

/-- The number of trailing context lines of a hunk: body lines starting
with a space after the last changed line. -/
def hunkTrailingContext (h : DiffHunk) : Nat :=
  (((splitOnChar '\n' h.content.toList).drop 1).reverse.takeWhile
    (fun l => l.head? = some ' ')).length

/-! ## submitReview (azure-devops.ts, `AzureDevOpsAdapter.submitReview`) -/

/-- A request `submitReview` issues against the Azure DevOps REST API:
an inline comment thread (via `addInlineComment`), the summary thread, or
the PR vote `PATCH`. -/
inductive HostRequest where
  | inlineThread (filePath : String) (line : Nat) (body : String)
  | summaryThread (content : String)
  | votePatch (vote : Option Int)
deriving DecidableEq, Repr

/-- The `voteMap` record: `approve → 10`, `request_changes → −5`,
`comment → 0`; any other key reads as `undefined` (`none`). -/
def voteMap (verdict : String) : Option Int :=
  if verdict = "approve" then some 10
  else if verdict = "request_changes" then some (-5)
  else if verdict = "comment" then some 0
  else none

/-- The `verdictEmoji` record, with JavaScript's `undefined` rendering for
any other key. -/
def verdictEmoji (verdict : String) : String :=
  if verdict = "approve" then "✅"
  else if verdict = "request_changes" then "🔄"
  else if verdict = "comment" then "💬"
  else "undefined"

/-- `addInlineComment` prepends a slash when the path lacks one. -/
def azurePath (p : String) : String :=
  match p.toList with
  | '/' :: _ => p
  | _ => "/" ++ p

/-- The summary-thread content template of `submitReview`. -/
def summaryContent (review : Review) : String :=
  verdictEmoji review.verdict ++ " **Review Summary**\n\n" ++ review.summary ++
    "\n\n**Verdict:** " ++ review.verdict

/-- `AzureDevOpsAdapter.submitReview` as the ordered list of host
requests it issues: every inline comment in order, then the summary
thread, then — only when `voteMap[verdict] !== 0` — the vote `PATCH`. -/
def submitReviewRequests (review : Review) : List HostRequest :=
  review.comments.map (fun c => HostRequest.inlineThread (azurePath c.path) c.line c.body) ++
    [HostRequest.summaryThread (summaryContent review)] ++
    (if voteMap review.verdict ≠ some 0 then [HostRequest.votePatch (voteMap review.verdict)]
     else [])

/-- The vote requests among a request list. -/
def voteRequests (rs : List HostRequest) : List (Option Int) :=
  rs.filterMap (fun r =>
    match r with
    | HostRequest.votePatch v => some v
    | _ => none)

/-- The inline-comment requests among a request list. -/
def inlineRequests (rs : List HostRequest) : List (String × Nat × String) :=
  rs.filterMap (fun r =>
    match r with
    | HostRequest.inlineThread p l b => some (p, l, b)
    | _ => none)

/-- The summary-thread requests among a request list. -/
def summaryRequests (rs : List HostRequest) : List String :=
  rs.filterMap (fun r =>
    match r with
    | HostRequest.summaryThread c => some c
    | _ => none)

/-! ## Correctness of the edit script (shared lemmas) -/

theorem oldContents_append (a b : List (Edit α)) :
    oldContents (a ++ b) = oldContents a ++ oldContents b := by
  simp [oldContents]

theorem newContents_append (a b : List (Edit α)) :
    newContents (a ++ b) = newContents a ++ newContents b := by
  simp [newContents]

theorem take_append_getD (l : List α) (d : α) :
    ∀ i, i < l.length → l.take i ++ [l.getD i d] = l.take (i + 1) := by
  induction l with
  | nil => intro i h; simp at h
  | cons a t ih =>
    intro i h
    cases i with
    | zero => simp [List.getD]
    | succ i =>
      simp only [List.getD, List.get?_cons_succ, List.take_succ_cons, List.cons_append,
        List.cons.injEq, true_and]
      exact ih i (by simpa using h)

/-- Replaying invariant of the backtracking loop: with enough fuel, from
position `(i, j)` the script reconstructs exactly the first `i` old lines
and the first `j` new lines, whatever the `dp` table contains. -/
theorem backtrackFuel_reconstruct (o n : List α) :
    ∀ (k i j : Nat), i + j ≤ k → i ≤ o.length → j ≤ n.length →
      oldContents (backtrackFuel o n k i j) = o.take i ∧
      newContents (backtrackFuel o n k i j) = n.take j := by
  intro k
  induction k with
  | zero =>
    intro i j hk hi hj
    have h0 : i = 0 ∧ j = 0 := by omega
    rw [backtrackFuel]
    simp [h0.1, h0.2, oldContents, newContents]
  | succ k ih =>
    intro i j hk hi hj
    rw [backtrackFuel]
    split_ifs with h0 h1 h2
    · simp [h0.1, h0.2, oldContents, newContents]
    · obtain ⟨hipos, hjpos, heq⟩ := h1
      obtain ⟨old_ih, new_ih⟩ := ih (i - 1) (j - 1) (by omega) (by omega) (by omega)
      constructor
      · rw [oldContents_append, old_ih]
        have : oldContents [(⟨EditType.equal, i, j, o.getD (i - 1) default⟩ : Edit α)] =
            [o.getD (i - 1) default] := by simp [oldContents]
        rw [this, take_append_getD o default (i - 1) (by omega)]
        congr 1
        omega
      · rw [newContents_append, new_ih]
        have : newContents [(⟨EditType.equal, i, j, o.getD (i - 1) default⟩ : Edit α)] =
            [o.getD (i - 1) default] := by simp [newContents]
        rw [this, heq, take_append_getD n default (j - 1) (by omega)]
        congr 1
        omega
    · obtain ⟨hjpos, -⟩ := h2
      obtain ⟨old_ih, new_ih⟩ := ih i (j - 1) (by omega) hi (by omega)
      constructor
      · rw [oldContents_append, old_ih]
        have : oldContents [(⟨EditType.add, 0, j, n.getD (j - 1) default⟩ : Edit α)] = [] := by
          simp [oldContents]
        rw [this, List.append_nil]
      · rw [newContents_append, new_ih]
        have : newContents [(⟨EditType.add, 0, j, n.getD (j - 1) default⟩ : Edit α)] =
            [n.getD (j - 1) default] := by simp [newContents]
        rw [this, take_append_getD n default (j - 1) (by omega)]
        congr 1
        omega
    · have hipos : 0 < i := by
        rcases Nat.eq_zero_or_pos i with hz | hp
        · subst hz
          have hjpos : 0 < j := by
            rcases Nat.eq_zero_or_pos j with hjz | hjp
            · exact absurd ⟨rfl, hjz⟩ h0
            · exact hjp
          exact absurd ⟨hjpos, Or.inl rfl⟩ h2
        · exact hp
      obtain ⟨old_ih, new_ih⟩ := ih (i - 1) j (by omega) (by omega) hj
      constructor
      · rw [oldContents_append, old_ih]
        have : oldContents [(⟨EditType.remove, i, 0, o.getD (i - 1) default⟩ : Edit α)] =
            [o.getD (i - 1) default] := by simp [oldContents]
        rw [this, take_append_getD o default (i - 1) (by omega)]
        congr 1
        omega
      · rw [newContents_append, new_ih]
        have : newContents [(⟨EditType.remove, i, 0, o.getD (i - 1) default⟩ : Edit α)] = [] := by
          simp [newContents]
        rw [this, List.append_nil]

theorem oldContents_removeScript (l : List (Nat × α)) :
    oldContents (l.map (fun p => (⟨EditType.remove, p.1 + 1, 0, p.2⟩ : Edit α))) =
      l.map Prod.snd := by
  induction l with
  | nil => simp [oldContents]
  | cons a t ih => simp [oldContents, List.filter] at ih ⊢; exact ih

theorem newContents_removeScript (l : List (Nat × α)) :
    newContents (l.map (fun p => (⟨EditType.remove, p.1 + 1, 0, p.2⟩ : Edit α))) = [] := by
  induction l with
  | nil => simp [newContents]
  | cons a t ih => simp [newContents, List.filter] at ih ⊢; exact ih

theorem oldContents_addScript (l : List (Nat × α)) :
    oldContents (l.map (fun p => (⟨EditType.add, 0, p.1 + 1, p.2⟩ : Edit α))) = [] := by
  induction l with
  | nil => simp [oldContents]
  | cons a t ih => simp [oldContents, List.filter] at ih ⊢; exact ih

theorem newContents_addScript (l : List (Nat × α)) :
    newContents (l.map (fun p => (⟨EditType.add, 0, p.1 + 1, p.2⟩ : Edit α))) =
      l.map Prod.snd := by
  induction l with
  | nil => simp [newContents]
  | cons a t ih => simp [newContents, List.filter] at ih ⊢; exact ih

/-- On both branches of `lcsEdits` the produced script reconstructs the two
inputs exactly. -/
theorem lcsEdits_reconstruct (o n : List α) :
    oldContents (lcsEdits o n) = o ∧ newContents (lcsEdits o n) = n := by
  rw [lcsEdits]
  by_cases h : 600000 < o.length * n.length
  · simp only [h, if_true]
    rw [oldContents_append, newContents_append, oldContents_removeScript,
      newContents_removeScript, oldContents_addScript, newContents_addScript]
    simp [List.enum_map_snd]
  · simp only [h, if_false]
    have := backtrackFuel_reconstruct o n (o.length + n.length) o.length n.length
      (le_refl _) (le_refl _) (le_refl _)
    simpa [backtrackEdits] using this

/-! ## Parser lemmas -/

theorem scanVerdict_mem (s : List Char) (v : String) :
    scanVerdict s = some v → v = "approve" ∨ v = "request_changes" ∨ v = "comment" := by
  induction s with
  | nil => intro h; simp [scanVerdict] at h
  | cons c rest ih =>
    intro h
    simp only [scanVerdict] at h
    split at h
    · split at h
      · exact Or.inl (Option.some.inj h).symm
      · split at h
        · exact Or.inr (Or.inl (Option.some.inj h).symm)
        · split at h
          · exact Or.inr (Or.inr (Option.some.inj h).symm)
          · exact ih h
    · exact ih h

theorem findCI_none_scanVerdict (s : List Char) :
    findCI "verdict:".toList s = none → scanVerdict s = none := by
  induction s with
  | nil => intro h; simp [scanVerdict]
  | cons c rest ih =>
    intro h
    simp only [findCI] at h
    simp only [scanVerdict]
    split at h
    · exact absurd h (by simp)
    · rename_i hneg
      rw [if_neg hneg]
      simp only [Option.map_eq_none'] at h
      exact ih h

/-! ## submitReview lemmas -/

theorem voteRequests_append (a b : List HostRequest) :
    voteRequests (a ++ b) = voteRequests a ++ voteRequests b := by
  simp [voteRequests]

theorem inlineRequests_append (a b : List HostRequest) :
    inlineRequests (a ++ b) = inlineRequests a ++ inlineRequests b := by
  simp [inlineRequests]

theorem summaryRequests_append (a b : List HostRequest) :
    summaryRequests (a ++ b) = summaryRequests a ++ summaryRequests b := by
  simp [summaryRequests]

theorem voteRequests_inline_map (comments : List ReviewComment) :
    voteRequests (comments.map
      (fun c => HostRequest.inlineThread (azurePath c.path) c.line c.body)) = [] := by
  induction comments with
  | nil => rfl
  | cons c t ih => simpa [voteRequests, List.filterMap_cons] using ih

theorem summaryRequests_inline_map (comments : List ReviewComment) :
    summaryRequests (comments.map
      (fun c => HostRequest.inlineThread (azurePath c.path) c.line c.body)) = [] := by
  induction comments with
  | nil => rfl
  | cons c t ih => simpa [summaryRequests, List.filterMap_cons] using ih

theorem inlineRequests_inline_map (comments : List ReviewComment) :
    inlineRequests (comments.map
      (fun c => HostRequest.inlineThread (azurePath c.path) c.line c.body)) =
      comments.map (fun c => (azurePath c.path, c.line, c.body)) := by
  induction comments with
  | nil => rfl
  | cons c t ih => simpa [inlineRequests, List.filterMap_cons] using ih

theorem inlineRequests_submit (r : Review) :
    inlineRequests (submitReviewRequests r) =
      r.comments.map (fun c => (azurePath c.path, c.line, c.body)) := by
  rw [submitReviewRequests, inlineRequests_append, inlineRequests_append,
    inlineRequests_inline_map]
  split_ifs <;> simp [inlineRequests]

theorem summaryRequests_submit (r : Review) :
    summaryRequests (submitReviewRequests r) = [summaryContent r] := by
  rw [submitReviewRequests, summaryRequests_append, summaryRequests_append,
    summaryRequests_inline_map]
  split_ifs <;> simp [summaryRequests]

theorem voteRequests_submit (r : Review) :
    voteRequests (submitReviewRequests r) =
      if voteMap r.verdict ≠ some 0 then [voteMap r.verdict] else [] := by
  rw [submitReviewRequests, voteRequests_append, voteRequests_append, voteRequests_inline_map]
  split_ifs <;> simp [voteRequests]

/-! ## Claim theorems -/

set_option maxRecDepth 200000

/-- C1: the spec claims a Myers O(N·D) diff whose full-replacement
fallback triggers only when the edit distance exceeds 8,000, never on the
product of the file sizes.  The code's `lcsEdits` is an LCS
dynamic program whose fallback triggers exactly when
`oldLines.length * newLines.length > 600_000`: for a 780-line file whose
790-line successor merely appends ten lines (the old file is literally
the 780-line prefix of the new one, so the true edit distance is 10,
far below 8,000), the engine emits the remove-all/add-all script with no
`equal` entry at all. -/
theorem C1_size_product_fallback :
    lcsEdits (List.range 780) (List.range 790) =
      (List.range 780).enum.map (fun p => ⟨EditType.remove, p.1 + 1, 0, p.2⟩) ++
        (List.range 790).enum.map (fun p => ⟨EditType.add, 0, p.1 + 1, p.2⟩) ∧
    ((lcsEdits (List.range 780) (List.range 790)).filter
      (fun e => e.type = EditType.equal)) = [] ∧
    List.range 780 = (List.range 790).take 780 := by
  refine ⟨by rfl, by decide, ?_⟩
  rw [List.take_range, Nat.min_eq_left (by omega)]

/-- C2: the spec claims `postReview` drops comments whose line number is
not among the `+` line numbers of that file's hunks.  The code validates
only the path: a comment at line 999 of a file whose only `+` line is
line 3 is passed to `submitReview` unchanged. -/
theorem C2_invalid_line_submitted :
    postReviewComments
        ⟨[⟨"src/a.ts", FileStatus.modified, 1, 1,
           (computeFileDiff "a\nb\nc\nd\ne\nf" "a\nb\nX\nd\ne\nf").hunks⟩], 1, 1, 1⟩
        [{ path := "src/a.ts", line := 999, body := "bogus", severity := Severity.info }] =
      [{ path := "src/a.ts", line := 999, body := "bogus", severity := Severity.info }] ∧
    fileAddedLines ⟨"src/a.ts", FileStatus.modified, 1, 1,
      (computeFileDiff "a\nb\nc\nd\ne\nf" "a\nb\nX\nd\ne\nf").hunks⟩ = [3] ∧
    (999 : Nat) ∉ fileAddedLines ⟨"src/a.ts", FileStatus.modified, 1, 1,
      (computeFileDiff "a\nb\nc\nd\ne\nf" "a\nb\nX\nd\ne\nf").hunks⟩ := by
  decide

/-- C3: the spec claims a comment with no confidence score passes the
precision filter at the default threshold 0.7.  The code defaults an
absent confidence to 0.5, and 0.5 < 0.7, so such a comment is dropped and
the passed list is empty. -/
theorem C3_absent_confidence_dropped :
    (filterByConfidence
        [⟨"src/a.ts", 3, "possible bug", Severity.warning, none, none⟩] {}).passed = [] ∧
    (filterByConfidence
        [⟨"src/a.ts", 3, "possible bug", Severity.warning, none, none⟩] {}).dropped =
      [⟨"src/a.ts", 3, "possible bug", Severity.warning, none, none⟩] := by
  have hb : decide ((7 : ℚ) / 10 ≤ (2⁻¹ : ℚ)) = false := by
    rw [decide_eq_false_iff_not]
    norm_num
  have hb2 : decide (((2⁻¹ : ℚ)) < (7 : ℚ) / 10) = true := by
    rw [decide_eq_true_eq]
    norm_num
  constructor <;> simp [filterByConfidence, List.filter, hb, hb2]

/-- C4 counterexample: an Azure DevOps webhook request carrying no
signature at all is answered 200 and queues a review task — the Azure
route never rejects with 401, because it performs no signature
verification. -/
theorem C4_counterexample :
    azureWebhookHandler
        { signature := none, eventType := some "git.pullrequest.created",
          remoteUrl := some "https://dev.azure.com/org/proj/_git/repo", commits := [],
          pullRequestId := 7 } =
      ⟨200, [BackgroundTask.reviewTask "azure"
        (mkRepoId "https://dev.azure.com/org/proj/_git/repo")
        "https://dev.azure.com/org/proj/_git/repo" 7]⟩ ∧ (200 : Nat) ≠ 401 := by
  exact ⟨rfl, by decide⟩

/-- C4 amended: only the GitHub route verifies signatures, and only when a
non-empty secret is configured; then a missing or invalid signature is
rejected with 401 and no background work is queued, whatever the payload
contains. -/
theorem C4_github_invalid_signature_rejected (hmacHex : String → String → String)
    (secret : String) (req : GitHubRequest) (hs : secret ≠ "")
    (hsig : req.signature = none ∨
      verifyGitHubSignature hmacHex secret req.rawBody req.signature = false) :
    githubWebhookHandler hmacHex secret req = ⟨401, []⟩ := by
  have hv : verifyGitHubSignature hmacHex secret req.rawBody req.signature = false := by
    rcases hsig with h | h
    · simp [verifyGitHubSignature, hs, h]
    · exact h
  simp [githubWebhookHandler, hv]

/-- Witness for C4 amended: a concrete unsigned request against a
configured secret is answered 401 with no queued work, even though its
payload would otherwise trigger a review. -/
theorem C4_github_invalid_signature_witness :
    githubWebhookHandler (fun _ _ => "00") "topsecret"
      { signature := none, rawBody := "x", event := "pull_request",
        repositoryHtmlUrl := some "https://github.com/o/r", action := some "opened",
        prNumber := 5 } = ⟨401, []⟩ :=
  C4_github_invalid_signature_rejected (fun _ _ => "00") "topsecret" _ (by decide) (Or.inl rfl)

/-- C5: the spec claims the parser discards a comment block whose line
number is below 1.  The code has no such check: a block with `Line: 0`
contributes a comment with line number 0 to the parsed result. -/
theorem C5_line_zero_comment_kept :
    parseCommentBlocks "[File: /a.ts, Line: 0] Null check missing" =
      [⟨"/a.ts", 0, "Null check missing", Severity.info, none, none⟩] := by
  decide

/-- C6: applying the edit script produced by the diff engine to the old
lines yields exactly the new lines: the `equal` and `add` entries in
order reconstruct the new file, and the `equal` and `remove` entries in
order reconstruct the old file — on the backtracking path and on the
large-input full-replacement path alike. -/
theorem C6_edit_script_reconstructs (oldLines newLines : List String) :
    newContents (lcsEdits oldLines newLines) = newLines ∧
    oldContents (lcsEdits oldLines newLines) = oldLines :=
  ⟨(lcsEdits_reconstruct oldLines newLines).2, (lcsEdits_reconstruct oldLines newLines).1⟩

/-- C7 counterexample: on the six-line example the single hunk carries
three trailing context lines (`d`, `e`, `f`), not the two the claim
states. -/
theorem C7_counterexample :
    (computeFileDiff "a\nb\nc\nd\ne\nf" "a\nb\nX\nd\ne\nf").hunks.map hunkTrailingContext =
      [3] ∧
    ¬ (computeFileDiff "a\nb\nc\nd\ne\nf" "a\nb\nX\nd\ne\nf").hunks.map hunkTrailingContext =
      [2] := by
  decide

/-- C7 amended: on old `a b c d e f` and new `a b X d e f` the engine
produces exactly one hunk with a single remove (`c` at old-line 3) and a
single add (`X` at new-line 3), additions = 1, deletions = 1, two leading
context lines and three trailing context lines (the context window is 3
and is clamped by the start of the file on the leading side only). -/
theorem C7_single_edit_hunk :
    (computeFileDiff "a\nb\nc\nd\ne\nf" "a\nb\nX\nd\ne\nf").additions = 1 ∧
    (computeFileDiff "a\nb\nc\nd\ne\nf" "a\nb\nX\nd\ne\nf").deletions = 1 ∧
    (computeFileDiff "a\nb\nc\nd\ne\nf" "a\nb\nX\nd\ne\nf").hunks.length = 1 ∧
    (lcsEdits ["a", "b", "c", "d", "e", "f"] ["a", "b", "X", "d", "e", "f"]).filter
      (fun e => e.type = EditType.remove) = [⟨EditType.remove, 3, 0, "c"⟩] ∧
    (lcsEdits ["a", "b", "c", "d", "e", "f"] ["a", "b", "X", "d", "e", "f"]).filter
      (fun e => e.type = EditType.add) = [⟨EditType.add, 0, 3, "X"⟩] ∧
    (computeFileDiff "a\nb\nc\nd\ne\nf" "a\nb\nX\nd\ne\nf").hunks.map hunkLeadingContext =
      [2] ∧
    (computeFileDiff "a\nb\nc\nd\ne\nf" "a\nb\nX\nd\ne\nf").hunks.map hunkTrailingContext =
      [3] := by
  decide

/-- C8: `submitReview` posts every inline comment and the summary for any
verdict, and issues the vote request +10 for `approve` and −5 for
`request_changes`, while the verdict `comment` (mapped to 0) produces no
vote request at all. -/
theorem C8_submit_review_requests (summary : String) (comments : List ReviewComment) :
    (∀ v : String,
      inlineRequests (submitReviewRequests ⟨summary, comments, v⟩) =
        comments.map (fun c => (azurePath c.path, c.line, c.body)) ∧
      summaryRequests (submitReviewRequests ⟨summary, comments, v⟩) =
        [summaryContent ⟨summary, comments, v⟩]) ∧
    voteRequests (submitReviewRequests ⟨summary, comments, "approve"⟩) = [some 10] ∧
    voteRequests (submitReviewRequests ⟨summary, comments, "request_changes"⟩) =
      [some (-5)] ∧
    voteRequests (submitReviewRequests ⟨summary, comments, "comment"⟩) = [] := by
  refine ⟨fun v => ⟨inlineRequests_submit _, summaryRequests_submit _⟩, ?_, ?_, ?_⟩ <;>
    rw [voteRequests_submit] <;> simp [voteMap]

/-- C9: with an empty configured secret, GitHub signature verification
accepts every request, and the webhook handler's outcome is independent
of whatever signature header (or none) the request carries. -/
theorem C9_empty_secret_accepts_all (hmacHex : String → String → String)
    (req : GitHubRequest) (sig1 sig2 : Option String) :
    verifyGitHubSignature hmacHex "" req.rawBody sig1 = true ∧
    githubWebhookHandler hmacHex "" { req with signature := sig1 } =
      githubWebhookHandler hmacHex "" { req with signature := sig2 } := by
  constructor
  · rfl
  · simp [githubWebhookHandler, verifyGitHubSignature]

/-- C10: the response parser is total and always yields one of the three
verdicts; with no `VERDICT:` marker anywhere in the response the verdict
defaults to `comment`, and with no `SUMMARY:` marker the summary defaults
to the first 500 characters of the response. -/
theorem C10_parser_totality (response : String) :
    ((parseReviewResponse response).verdict = "approve" ∨
      (parseReviewResponse response).verdict = "request_changes" ∨
      (parseReviewResponse response).verdict = "comment") ∧
    (findCI "verdict:".toList response.toList = none →
      (parseReviewResponse response).verdict = "comment") ∧
    (findCI "summary:".toList response.toList = none →
      (parseReviewResponse response).summary = String.mk (response.toList.take 500)) := by
  refine ⟨?_, ?_, ?_⟩
  · cases hv : scanVerdict response.toList with
    | none =>
      simp only [String.toList] at hv
      simp [parseReviewResponse, hv]
    | some v =>
      have hmem := scanVerdict_mem response.toList v hv
      simp only [String.toList] at hv
      simpa [parseReviewResponse, hv] using hmem
  · intro h
    have hv := findCI_none_scanVerdict response.toList h
    simp [parseReviewResponse, String.toList] at hv ⊢
    simp [hv]
  · intro h
    simp [parseReviewResponse, scanSummary, String.toList] at h ⊢
    simp [h]

/-- Witness for C10: on the empty response the parser yields the verdict
`comment` and the empty summary. -/
theorem C10_parser_totality_witness :
    ((parseReviewResponse "").verdict = "approve" ∨
      (parseReviewResponse "").verdict = "request_changes" ∨
      (parseReviewResponse "").verdict = "comment") ∧
    (parseReviewResponse "").verdict = "comment" ∧
    (parseReviewResponse "").summary = String.mk (("".toList).take 500) :=
  ⟨(C10_parser_totality "").1, (C10_parser_totality "").2.1 (by decide),
    (C10_parser_totality "").2.2 (by decide)⟩

end AgnusAi
